import Mathlib

/-!
Verification of the Kerala Bio-Circular Carbon Challenge dispatch core.

This file gives a shallow embedding of the two core components of the
repository — the dispatch solver (`algorithm_code/corrected_solver.py`,
class `CorrectedSolver`) and the simulation engine (`src/simulator.py`,
class `BiosolidSimulator`) together with the data-access helpers of
`src/data.py` — and proves the frozen specification claims about them.

Modelling conventions:
- Python floats are modelled as exact rationals (ℚ).
- Python dictionaries keyed by identifier are modelled either as lists of
  records (iteration order = insertion order) with `List.find?` lookup, or
  as association lists `List (String × ℚ)` for the per-day accumulators.
- A Python runtime exception (the reachable ZeroDivisionError in the
  acceptance walk, or a KeyError on a missing registry entry) is modelled
  by returning `none`.
- The mutable plant state (`STP.current_storage`) is passed explicitly:
  `solve_day` only reads it, `run_day` returns the updated plant list.
-/

namespace KeralaBio

/-- A farm record (`src/data.py`, class `Farm`): identity, rainfall zone,
area in hectares, coordinates, and the precomputed distance (km) to each
plant, modelled as a total function from plant id (the registry
precomputes one entry per plant). -/
structure Farm where
  id : String
  zone : String
  area_ha : ℚ
  lat : ℚ
  lon : ℚ
  distances : String → ℚ

/-- A treatment-plant record (`src/data.py`, class `STP`): identity, fixed
daily output, fixed maximum storage, coordinates, and the mutable current
storage level. -/
structure STP where
  id : String
  daily_output : ℚ
  max_storage : ℚ
  lat : ℚ
  lon : ℚ
  current_storage : ℚ
  deriving DecidableEq, Repr

/-- A proposed delivery (`src/simulator.py`, dataclass `Action`). -/
structure Action where
  stp_id : String
  farm_id : String
  amount_tons : ℚ
  deriving DecidableEq, Repr

/-- The per-day score record (`src/simulator.py`, dataclass `DailyResult`). -/
structure DailyResult where
  date : String
  credits : ℚ
  emissions : ℚ
  penalties : ℚ
  net_score : ℚ
  delivered_tons : ℚ
  overflow_tons : ℚ
  banned_actions : Nat
  deriving DecidableEq, Repr

/-- The static environment: the farm registry, the weather table (one row
per date, in file order, each row mapping a zone column to rainfall mm),
the nitrogen-demand table (one row per date, each row mapping a farm id to
kg/ha, with a missing column read as 0 like `dict.get(farm_id, 0.0)`), and
the named configuration constants read by `BiosolidSimulator.__init__`. -/
structure Env where
  farms : List Farm
  weather : List (String × (String → ℚ))
  nDemand : List (String × (String → ℚ))
  truck_capacity : ℚ
  emission_factor : ℚ
  n_content : ℚ
  synthetic_credit : ℚ
  soil_credit : ℚ
  leaching_penalty : ℚ
  buffer_percent : ℚ
  rain_threshold : ℚ
  overflow_penalty : ℚ
  forecast_window : Nat

/-- Dictionary lookup of a farm by id (`self.dm.farms[farm_id]`); `none`
models a KeyError. -/
def findFarm (env : Env) (fid : String) : Option Farm :=
  env.farms.find? (fun f => f.id == fid)

/-- Dictionary lookup of a plant by id (`self.dm.stps[stp_id]`); `none`
models a KeyError. -/
def findStp (stps : List STP) (sid : String) : Option STP :=
  stps.find? (fun s => s.id == sid)

/-- `DataManager.get_weather_forecast`: locate the first weather row whose
date matches, take `lookahead` consecutive rows from there, read the zone
column, and pad with zeros past the end of the data; an absent date gives
an all-zero forecast (the IndexError branch). -/
def get_weather_forecast (env : Env) (date zone : String) (lookahead : Nat) : List ℚ :=
  match env.weather.findIdx? (fun r => r.1 == date) with
  | some i =>
      let rainfall := ((env.weather.drop i).take lookahead).map (fun r => r.2 zone)
      rainfall ++ List.replicate (lookahead - rainfall.length) 0
  | none => List.replicate lookahead 0

/-- `DataManager.get_daily_demand_per_ha` combined with the call-site
default `per_ha_demands.get(farm_id, 0.0)`: the row for the date as a
total function, or the constant-zero function when no row matches. -/
def get_daily_demand_per_ha (env : Env) (date : String) : String → ℚ :=
  match env.nDemand.find? (fun r => r.1 == date) with
  | some r => r.2
  | none => fun _ => 0

/-- `BiosolidSimulator.is_rain_locked`: cumulative forecast rainfall over
the configured window strictly exceeds the configured threshold. -/
def is_rain_locked (env : Env) (date zone : String) : Bool :=
  decide ((get_weather_forecast env date zone env.forecast_window).sum > env.rain_threshold)

/-! ### Dispatch solver (`algorithm_code/corrected_solver.py`) -/

/-- One entry of the `delivery_options` list built by `solve_day`: the
tuple `(net_carbon_impact, dist, farm_id, load_tons)`. -/
structure Cand where
  nci : ℚ
  dist : ℚ
  farm_id : String
  load_tons : ℚ
  deriving DecidableEq, Repr

/-- The net-carbon-impact computation of `CorrectedSolver.solve_day` for
one candidate route, with the hard-coded solver constants of the source
(1.37 multiplier, soil credit 200.0, transport cost 0.9 per truck-km,
nitrogen offset 5.0 per kg, leaching 10.0 per kg excess) and the
simulator-owned configuration values `n_content` and `buffer_percent`. -/
def nciOf (env : Env) (dist demand_kg_ha area_ha load_tons : ℚ) : ℚ :=
  let total_n_demand := demand_kg_ha * area_ha
  let soil_benefit := load_tons * 1.37 * 200.0
  let load_n_kg := load_tons * env.n_content
  let useful_n_kg := min load_n_kg total_n_demand
  let n_offset_benefit := useful_n_kg * 5.0
  let trucks : ℤ := ⌈load_tons / 10.0⌉
  let transport_cost := dist * 0.9 * (trucks : ℚ)
  let max_safe_n := total_n_demand * (1 + env.buffer_percent)
  let excess_n_kg := max 0 (load_n_kg - max_safe_n)
  let leaching_cost := excess_n_kg * 10.0
  soil_benefit + n_offset_benefit - transport_cost - leaching_cost

/-- The candidate routes generated by `solve_day` for one plant: every
farm not yet visited today and not rain-locked, with the load capped at
`min(available, 10.0)` and its NCI score. Iteration order is the farm
registry (dict insertion) order. -/
def candidatesFor (env : Env) (date : String) (stp : STP) (visited : List String)
    (available : ℚ) : List Cand :=
  (env.farms.filter (fun f => !(visited.contains f.id) && !(is_rain_locked env date f.zone))).map
    (fun f =>
      let dist := f.distances stp.id
      let demand_kg_ha := get_daily_demand_per_ha env date f.id
      let load_tons := min available 10.0
      { nci := nciOf env dist demand_kg_ha f.area_ha load_tons
        dist := dist
        farm_id := f.id
        load_tons := load_tons })

/-- Stable insertion for a descending sort: the new element goes before
the first element whose key is not larger, which matches the stability of
the Python `sorted`/`list.sort` with `reverse=True`. -/
def insertByDesc {α : Type} (key : α → ℚ) (c : α) : List α → List α
  | [] => [c]
  | d :: ds => if key c < key d then d :: insertByDesc key c ds else c :: d :: ds

/-- Stable descending sort by a rational key, modelling Python sorting
with `reverse=True`. -/
def sortByDesc {α : Type} (key : α → ℚ) : List α → List α
  | [] => []
  | c :: cs => insertByDesc key c (sortByDesc key cs)

/-- The triage key of `solve_day`: fill ratio with the zero-capacity guard
`s.current_storage / s.max_storage if s.max_storage > 0 else 0`. -/
def triageKey (s : STP) : ℚ :=
  if s.max_storage > 0 then s.current_storage / s.max_storage else 0

/-- The dispatch walk of `solve_day` over the NCI-sorted candidate list of
one plant. Mirrors the Python loop: stop when the remaining available
material drops below 1.0; otherwise evaluate
`fill_ratio = stp.current_storage / stp.max_storage` — a ZeroDivisionError
(modelled as `none`) when `max_storage = 0` — and accept the candidate
when its NCI is positive or the fill ratio exceeds 0.8, else stop. -/
def acceptWalk (stp : STP) : List Cand → ℚ → List Action → List String →
    Option (List Action × List String × ℚ)
  | [], available, acts, visited => some (acts, visited, available)
  | c :: rest, available, acts, visited =>
    if available < 1.0 then some (acts, visited, available)
    else if stp.max_storage = 0 then none
    else
      let fill_ratio := stp.current_storage / stp.max_storage
      if c.nci > 0 ∨ fill_ratio > 0.8 then
        let amount := min available c.load_tons
        acceptWalk stp rest (available - amount)
          (acts ++ [⟨stp.id, c.farm_id, amount⟩]) (c.farm_id :: visited)
      else some (acts, visited, available)

/-- Processing of one plant inside `solve_day`: skip it when available
material is below 1.0 ton, otherwise generate candidates, sort them by
NCI descending, and run the dispatch walk, threading the day-global action
list and visited-farm set. -/
def processStp (env : Env) (date : String) (stp : STP)
    (acc : List Action × List String) : Option (List Action × List String) :=
  let available := stp.current_storage + stp.daily_output
  if available < 1.0 then some acc
  else
    let options := sortByDesc Cand.nci (candidatesFor env date stp acc.2 available)
    match acceptWalk stp options available acc.1 acc.2 with
    | none => none
    | some (acts, visited, _) => some (acts, visited)

/-- The plant loop of `solve_day` in triage order. -/
def solve_day_go (env : Env) (date : String) :
    List STP → List Action × List String → Option (List Action × List String)
  | [], acc => some acc
  | s :: rest, acc =>
    match processStp env date s acc with
    | none => none
    | some acc2 => solve_day_go env date rest acc2

/-- `CorrectedSolver.solve_day`: sort the plants by fill ratio descending
and process each in turn; `none` models the reachable ZeroDivisionError. -/
def solve_day (env : Env) (stps : List STP) (date : String) : Option (List Action) :=
  (solve_day_go env date (sortByDesc triageKey stps) ([], [])).map (fun r => r.1)

/-! ### Simulation engine (`src/simulator.py`) -/

/-- Association-list read with default 0, modelling `d.get(k, 0)`. -/
def getD (l : List (String × ℚ)) (k : String) : ℚ :=
  match l.find? (fun p => p.1 == k) with
  | some p => p.2
  | none => 0

/-- Association-list write, modelling `d[k] = v` on a Python dict: replace
in place when the key is present, else append. -/
def setD (l : List (String × ℚ)) (k : String) (v : ℚ) : List (String × ℚ) :=
  if l.any (fun p => p.1 == k) then
    l.map (fun p => if p.1 == k then (k, v) else p)
  else l ++ [(k, v)]

/-- The accumulator state of the per-action loop of `run_day`: emissions,
penalties, delivered tons, the `farm_deliveries` and `stp_dispatches`
dictionaries, and the rejection counter. -/
structure Phase1 where
  emissions : ℚ
  penalties : ℚ
  delivered : ℚ
  farmDel : List (String × ℚ)
  stpDisp : List (String × ℚ)
  banned : Nat
  deriving DecidableEq, Repr

/-- The zeroed accumulators at the start of `run_day`. -/
def initPhase1 : Phase1 := ⟨0, 0, 0, [], [], 0⟩

/-- One iteration of the per-action loop of `run_day`: look up the farm
and plant (KeyError modelled as `none`), then either the rain-locked
branch (dump penalty, emissions, dispatch debit, rejection count) or the
valid branch (emissions, farm delivery, dispatch debit, delivered tons). -/
def processAction (env : Env) (stps : List STP) (date : String) (st : Phase1)
    (a : Action) : Option Phase1 :=
  match findFarm env a.farm_id, findStp stps a.stp_id with
  | some farm, some _ =>
    if is_rain_locked env date farm.zone then
      let distance := farm.distances a.stp_id
      let trucks : ℤ := ⌈a.amount_tons / env.truck_capacity⌉
      some { st with
        penalties := st.penalties + a.amount_tons * env.overflow_penalty
        banned := st.banned + 1
        emissions := st.emissions + distance * (trucks : ℚ) * env.emission_factor
        stpDisp := setD st.stpDisp a.stp_id (getD st.stpDisp a.stp_id + a.amount_tons) }
    else
      let distance := farm.distances a.stp_id
      let trucks : ℤ := ⌈a.amount_tons / env.truck_capacity⌉
      some { st with
        emissions := st.emissions + distance * (trucks : ℚ) * env.emission_factor
        farmDel := setD st.farmDel a.farm_id (getD st.farmDel a.farm_id + a.amount_tons)
        stpDisp := setD st.stpDisp a.stp_id (getD st.stpDisp a.stp_id + a.amount_tons)
        delivered := st.delivered + a.amount_tons }
  | _, _ => none

/-- The per-action loop of `run_day` (step 1 of the method). -/
def processActions (env : Env) (stps : List STP) (date : String) :
    List Action → Phase1 → Option Phase1
  | [], st => some st
  | a :: as_, st =>
    match processAction env stps date st a with
    | none => none
    | some st2 => processActions env stps date as_ st2

/-- The per-farm credit and leaching loop of `run_day` (step 2): fold over
the aggregated `farm_deliveries`, accumulating (credits, leaching
penalties); `none` models a KeyError on the farm lookup. -/
def farmCredits (env : Env) (date : String) :
    List (String × ℚ) → ℚ × ℚ → Option (ℚ × ℚ)
  | [], acc => some acc
  | (fid, delivered_tons) :: rest, acc =>
    match findFarm env fid with
    | none => none
    | some farm =>
      let n_delivered_kg := delivered_tons * env.n_content
      let demand_per_ha := get_daily_demand_per_ha env date fid
      let total_demand_kg := demand_per_ha * farm.area_ha
      let uptake_kg := min n_delivered_kg total_demand_kg
      let credits2 := acc.1 + uptake_kg * env.synthetic_credit
        + (delivered_tons * 1000.0) * env.soil_credit
      let max_safe_n := total_demand_kg * (1 + env.buffer_percent)
      let pen2 :=
        if n_delivered_kg > max_safe_n then
          acc.2 + (n_delivered_kg - max_safe_n) * env.leaching_penalty
        else acc.2
      farmCredits env date rest (credits2, pen2)

/-- The end-of-day update of one plant (step 3 of `run_day`): add the
daily production, subtract the dispatched tons clamped at zero, and clamp
at capacity, returning the updated plant together with its contribution to
the overflow total and to the overflow penalties. -/
def updateStp (env : Env) (disp : List (String × ℚ)) (s : STP) : STP × ℚ × ℚ :=
  let available_tons := s.current_storage + s.daily_output
  let attempted_dispatch := getD disp s.id
  let storage1 := max 0 (available_tons - attempted_dispatch)
  if storage1 > s.max_storage then
    ({ s with current_storage := s.max_storage },
      storage1 - s.max_storage, (storage1 - s.max_storage) * env.overflow_penalty)
  else
    ({ s with current_storage := storage1 }, 0, 0)

/-- The end-of-day state-update loop of `run_day` over every plant,
returning the new plant list, the total overflow tons, and the total
overflow penalty. -/
def updateStps (env : Env) (stps : List STP) (disp : List (String × ℚ)) :
    List STP × ℚ × ℚ :=
  (stps.map (fun s => (updateStp env disp s).1),
   (stps.map (fun s => (updateStp env disp s).2.1)).sum,
   (stps.map (fun s => (updateStp env disp s).2.2)).sum)

/-- `BiosolidSimulator.run_day`: process the actions, accrue per-farm
credits and leaching, apply the per-plant state update, and assemble the
`DailyResult`; `none` models a KeyError on a registry lookup. -/
def run_day (env : Env) (stps : List STP) (date : String) (actions : List Action) :
    Option (List STP × DailyResult) :=
  match processActions env stps date actions initPhase1 with
  | none => none
  | some st =>
    match farmCredits env date st.farmDel (0, 0) with
    | none => none
    | some cp =>
      let u := updateStps env stps st.stpDisp
      let daily_penalties := st.penalties + cp.2 + u.2.2
      some (u.1,
        { date := date
          credits := cp.1
          emissions := st.emissions
          penalties := daily_penalties
          net_score := cp.1 - st.emissions - daily_penalties
          delivered_tons := st.delivered
          overflow_tons := u.2.1
          banned_actions := st.banned })

/-! ### Helper lemmas about the stable sorts and dictionary lookups -/

theorem insertByDesc_perm {α : Type} (key : α → ℚ) (c : α) (l : List α) :
    (insertByDesc key c l).Perm (c :: l) := by
  induction l with
  | nil => simp [insertByDesc]
  | cons d ds ih =>
    simp only [insertByDesc]
    split
    · exact ((ih.cons d).trans (List.Perm.swap c d ds))
    · exact List.Perm.refl _

theorem sortByDesc_perm {α : Type} (key : α → ℚ) (l : List α) :
    (sortByDesc key l).Perm l := by
  induction l with
  | nil => simp [sortByDesc]
  | cons c cs ih =>
    exact (insertByDesc_perm key c (sortByDesc key cs)).trans (ih.cons c)

theorem mem_sortByDesc {α : Type} {key : α → ℚ} {l : List α} {a : α} :
    a ∈ sortByDesc key l ↔ a ∈ l :=
  (sortByDesc_perm key l).mem_iff

theorem length_sortByDesc {α : Type} (key : α → ℚ) (l : List α) :
    (sortByDesc key l).length = l.length :=
  (sortByDesc_perm key l).length_eq

theorem find_by_id_of_nodup {α : Type} (idf : α → String) :
    ∀ (l : List α) (x : α), (l.map idf).Nodup → x ∈ l →
      l.find? (fun y => idf y == idf x) = some x := by
  intro l
  induction l with
  | nil => intro x _ hx; cases hx
  | cons g rest ih =>
    intro x hnd hx
    simp only [List.map_cons, List.nodup_cons] at hnd
    rcases List.mem_cons.mp hx with h | h
    · subst h
      simp [List.find?_cons]
    · have hne : (idf g == idf x) = false := by
        apply beq_false_of_ne
        intro he
        exact hnd.1 (he ▸ List.mem_map_of_mem idf h)
      simp only [List.find?_cons, hne]
      exact ih x hnd.2 h

theorem findFarm_eq_of_mem {env : Env} {f : Farm}
    (hnd : (env.farms.map Farm.id).Nodup) (hf : f ∈ env.farms) :
    findFarm env f.id = some f :=
  find_by_id_of_nodup Farm.id env.farms f hnd hf

theorem find_by_id_isSome {α : Type} (idf : α → String) :
    ∀ (l : List α) (x : α), x ∈ l → (l.find? (fun y => idf y == idf x)).isSome := by
  intro l
  induction l with
  | nil => intro x hx; cases hx
  | cons t rest ih =>
    intro x hx
    rcases List.mem_cons.mp hx with h | h
    · subst h; simp [List.find?_cons]
    · by_cases hb : (idf t == idf x) = true
      · simp [List.find?_cons, hb]
      · simp only [List.find?_cons, Bool.not_eq_true] at hb
        rw [List.find?_cons, hb]
        exact ih x h

theorem findStp_isSome_of_mem {stps : List STP} {s : STP} (hs : s ∈ stps) :
    (findStp stps s.id).isSome :=
  find_by_id_isSome STP.id stps s hs

/-! ### Lemmas about the acceptance walk of the solver -/

theorem acceptWalk_extends (stp : STP) :
    ∀ (cands : List Cand) (avail : ℚ) (acts : List Action) (vis : List String)
      (acts2 : List Action) (vis2 : List String) (avail2 : ℚ),
      acceptWalk stp cands avail acts vis = some (acts2, vis2, avail2) →
      ∃ blk, acts2 = acts ++ blk := by
  intro cands
  induction cands with
  | nil =>
    intro avail acts vis acts2 vis2 avail2 h
    simp only [acceptWalk, Option.some.injEq, Prod.mk.injEq] at h
    exact ⟨[], by simp [← h.1]⟩
  | cons c rest ih =>
    intro avail acts vis acts2 vis2 avail2 h
    by_cases h1 : avail < 1.0
    · simp only [acceptWalk, if_pos h1, Option.some.injEq, Prod.mk.injEq] at h
      exact ⟨[], by simp [← h.1]⟩
    · by_cases h2 : stp.max_storage = 0
      · simp [acceptWalk, if_neg h1, if_pos h2] at h
      · by_cases h3 : c.nci > 0 ∨ stp.current_storage / stp.max_storage > 0.8
        · simp only [acceptWalk, if_neg h1, if_neg h2, if_pos h3] at h
          obtain ⟨blk, hblk⟩ := ih _ _ _ _ _ _ h
          exact ⟨_ :: blk, by simpa using hblk⟩
        · simp only [acceptWalk, if_neg h1, if_neg h2, if_neg h3, Option.some.injEq,
            Prod.mk.injEq] at h
          exact ⟨[], by simp [← h.1]⟩

theorem acceptWalk_isSome (stp : STP) (hm : stp.max_storage ≠ 0) :
    ∀ (cands : List Cand) (avail : ℚ) (acts : List Action) (vis : List String),
      (acceptWalk stp cands avail acts vis).isSome := by
  intro cands
  induction cands with
  | nil => intro avail acts vis; simp [acceptWalk]
  | cons c rest ih =>
    intro avail acts vis
    by_cases h1 : avail < 1.0
    · simp [acceptWalk, if_pos h1]
    · by_cases h3 : c.nci > 0 ∨ stp.current_storage / stp.max_storage > 0.8
      · simp only [acceptWalk, if_neg h1, if_neg hm, if_pos h3]
        exact ih _ _ _
      · simp [acceptWalk, if_neg h1, if_neg hm, if_neg h3]

theorem acceptWalk_sum (stp : STP) :
    ∀ (cands : List Cand) (avail : ℚ) (acts : List Action) (vis : List String)
      (acts2 : List Action) (vis2 : List String) (avail2 : ℚ),
      0 ≤ avail → (∀ c ∈ cands, 1 ≤ c.load_tons) →
      acceptWalk stp cands avail acts vis = some (acts2, vis2, avail2) →
      ∃ blk, acts2 = acts ++ blk ∧
        (∀ a ∈ blk, a.stp_id = stp.id ∧ 1 ≤ a.amount_tons) ∧
        0 ≤ avail2 ∧ avail2 = avail - (blk.map Action.amount_tons).sum := by
  intro cands
  induction cands with
  | nil =>
    intro avail acts vis acts2 vis2 avail2 h0 _ h
    simp only [acceptWalk, Option.some.injEq, Prod.mk.injEq] at h
    refine ⟨[], by simp [← h.1], by simp, ?_, ?_⟩
    · rw [← h.2.2]; exact h0
    · simp [← h.2.2]
  | cons c rest ih =>
    intro avail acts vis acts2 vis2 avail2 h0 hload h
    by_cases h1 : avail < 1.0
    · simp only [acceptWalk, if_pos h1, Option.some.injEq, Prod.mk.injEq] at h
      refine ⟨[], by simp [← h.1], by simp, ?_, ?_⟩
      · rw [← h.2.2]; exact h0
      · simp [← h.2.2]
    · by_cases h2 : stp.max_storage = 0
      · simp [acceptWalk, if_neg h1, if_pos h2] at h
      · by_cases h3 : c.nci > 0 ∨ stp.current_storage / stp.max_storage > 0.8
        · simp only [acceptWalk, if_neg h1, if_neg h2, if_pos h3] at h
          have hav : (0:ℚ) ≤ avail - min avail c.load_tons := by
            have : min avail c.load_tons ≤ avail := min_le_left _ _
            linarith
          obtain ⟨blk, hacts, hprops, hge, heq⟩ :=
            ih _ _ _ _ _ _ hav (fun d hd => hload d (List.mem_cons_of_mem c hd)) h
          refine ⟨⟨stp.id, c.farm_id, min avail c.load_tons⟩ :: blk, by simpa using hacts,
            ?_, hge, ?_⟩
          · intro a ha
            rcases List.mem_cons.mp ha with h | h
            · subst h
              refine ⟨rfl, le_min (by linarith [not_lt.mp h1]) (hload c (List.mem_cons_self c rest))⟩
            · exact hprops a h
          · simp only [List.map_cons, List.sum_cons]
            rw [heq]; ring
        · simp only [acceptWalk, if_neg h1, if_neg h2, if_neg h3, Option.some.injEq,
            Prod.mk.injEq] at h
          refine ⟨[], by simp [← h.1], by simp, ?_, ?_⟩
          · rw [← h.2.2]; exact h0
          · simp [← h.2.2]

theorem acceptWalk_visited (stp : STP) :
    ∀ (cands : List Cand) (avail : ℚ) (acts : List Action) (vis : List String)
      (acts2 : List Action) (vis2 : List String) (avail2 : ℚ),
      (∀ c ∈ cands, ¬ c.farm_id ∈ vis) → ((cands.map Cand.farm_id).Nodup) →
      ((acts.map Action.farm_id).Nodup) → (∀ a ∈ acts, a.farm_id ∈ vis) →
      acceptWalk stp cands avail acts vis = some (acts2, vis2, avail2) →
      ((acts2.map Action.farm_id).Nodup) ∧ (∀ a ∈ acts2, a.farm_id ∈ vis2) ∧
        (∀ x ∈ vis, x ∈ vis2) := by
  intro cands
  induction cands with
  | nil =>
    intro avail acts vis acts2 vis2 avail2 _ _ hand hin h
    simp only [acceptWalk, Option.some.injEq, Prod.mk.injEq] at h
    rw [← h.1, ← h.2.1]
    exact ⟨hand, hin, fun x hx => hx⟩
  | cons c rest ih =>
    intro avail acts vis acts2 vis2 avail2 hnv hnd hand hin h
    by_cases h1 : avail < 1.0
    · simp only [acceptWalk, if_pos h1, Option.some.injEq, Prod.mk.injEq] at h
      rw [← h.1, ← h.2.1]
      exact ⟨hand, hin, fun x hx => hx⟩
    · by_cases h2 : stp.max_storage = 0
      · simp [acceptWalk, if_neg h1, if_pos h2] at h
      · by_cases h3 : c.nci > 0 ∨ stp.current_storage / stp.max_storage > 0.8
        · simp only [acceptWalk, if_neg h1, if_neg h2, if_pos h3] at h
          simp only [List.map_cons, List.nodup_cons] at hnd
          have hnotin : ¬ c.farm_id ∈ acts.map Action.farm_id := by
            intro hmem
            obtain ⟨a, ha, hfa⟩ := List.mem_map.mp hmem
            exact hnv c (List.mem_cons_self c rest) (hfa ▸ hin a ha)
          have hand2 : (((acts ++ [(⟨stp.id, c.farm_id, min avail c.load_tons⟩ : Action)]).map
              Action.farm_id).Nodup) := by
            simp only [List.map_append, List.map_cons, List.map_nil]
            rw [List.nodup_append]
            refine ⟨hand, List.nodup_singleton _, ?_⟩
            intro x hx hx2
            simp only [List.mem_singleton] at hx2
            exact hnotin (hx2 ▸ hx)
          have hin2 : ∀ a ∈ acts ++ [(⟨stp.id, c.farm_id, min avail c.load_tons⟩ : Action)],
              a.farm_id ∈ c.farm_id :: vis := by
            intro a ha
            rcases List.mem_append.mp ha with h | h
            · exact List.mem_cons_of_mem _ (hin a h)
            · simp only [List.mem_singleton] at h
              subst h
              exact List.mem_cons_self _ _
          have hnv2 : ∀ d ∈ rest, ¬ d.farm_id ∈ c.farm_id :: vis := by
            intro d hd hmem
            rcases List.mem_cons.mp hmem with h | h
            · exact hnd.1 (h ▸ List.mem_map_of_mem Cand.farm_id hd)
            · exact hnv d (List.mem_cons_of_mem c hd) h
          obtain ⟨r1, r2, r3⟩ := ih _ _ _ _ _ _ hnv2 hnd.2 hand2 hin2 h
          exact ⟨r1, r2, fun x hx => r3 x (List.mem_cons_of_mem _ hx)⟩
        · simp only [acceptWalk, if_neg h1, if_neg h2, if_neg h3, Option.some.injEq,
            Prod.mk.injEq] at h
          rw [← h.1, ← h.2.1]
          exact ⟨hand, hin, fun x hx => hx⟩

theorem acceptWalk_prop (stp : STP) (P : Action → Prop) :
    ∀ (cands : List Cand) (avail : ℚ) (acts : List Action) (vis : List String)
      (acts2 : List Action) (vis2 : List String) (avail2 : ℚ),
      (∀ c ∈ cands, ∀ q : ℚ, P ⟨stp.id, c.farm_id, q⟩) → (∀ a ∈ acts, P a) →
      acceptWalk stp cands avail acts vis = some (acts2, vis2, avail2) →
      ∀ a ∈ acts2, P a := by
  intro cands
  induction cands with
  | nil =>
    intro avail acts vis acts2 vis2 avail2 _ hacts h
    simp only [acceptWalk, Option.some.injEq, Prod.mk.injEq] at h
    rw [← h.1]; exact hacts
  | cons c rest ih =>
    intro avail acts vis acts2 vis2 avail2 hc hacts h
    by_cases h1 : avail < 1.0
    · simp only [acceptWalk, if_pos h1, Option.some.injEq, Prod.mk.injEq] at h
      rw [← h.1]; exact hacts
    · by_cases h2 : stp.max_storage = 0
      · simp [acceptWalk, if_neg h1, if_pos h2] at h
      · by_cases h3 : c.nci > 0 ∨ stp.current_storage / stp.max_storage > 0.8
        · simp only [acceptWalk, if_neg h1, if_neg h2, if_pos h3] at h
          refine ih _ _ _ _ _ _ (fun d hd => hc d (List.mem_cons_of_mem c hd)) ?_ h
          intro a ha
          rcases List.mem_append.mp ha with hl | hr
          · exact hacts a hl
          · simp only [List.mem_singleton] at hr
            subst hr
            exact hc c (List.mem_cons_self c rest) _
        · simp only [acceptWalk, if_neg h1, if_neg h2, if_neg h3, Option.some.injEq,
            Prod.mk.injEq] at h
          rw [← h.1]; exact hacts

/-! ### Lemmas about candidate generation and per-plant processing -/

theorem not_mem_of_contains_false {l : List String} {x : String}
    (h : l.contains x = false) : ¬ x ∈ l := by
  intro hm
  rw [show l.contains x = l.elem x from rfl, List.elem_eq_mem, decide_eq_true hm] at h
  cases h

theorem mem_candidatesFor {env : Env} {date : String} {stp : STP} {vis : List String}
    {avail : ℚ} {c : Cand} (hc : c ∈ candidatesFor env date stp vis avail) :
    ∃ f, f ∈ env.farms ∧ vis.contains f.id = false ∧
      is_rain_locked env date f.zone = false ∧ c.farm_id = f.id ∧
      c.load_tons = min avail 10.0 := by
  unfold candidatesFor at hc
  obtain ⟨f, hf, hfc⟩ := List.mem_map.mp hc
  have hfil := List.mem_filter.mp hf
  have hb := hfil.2
  simp only [Bool.and_eq_true, Bool.not_eq_true'] at hb
  exact ⟨f, hfil.1, hb.1, hb.2, by rw [← hfc], by rw [← hfc]⟩

theorem candidatesFor_ne_nil {env : Env} {date : String} {stp : STP} {vis : List String}
    {avail : ℚ} {f : Farm} (hf : f ∈ env.farms) (h1 : vis.contains f.id = false)
    (h2 : is_rain_locked env date f.zone = false) :
    candidatesFor env date stp vis avail ≠ [] := by
  unfold candidatesFor
  have hfil : f ∈ env.farms.filter
      (fun f => !(vis.contains f.id) && !(is_rain_locked env date f.zone)) :=
    List.mem_filter.mpr ⟨hf, by rw [h1, h2]; rfl⟩
  exact List.ne_nil_of_mem (List.mem_map_of_mem _ hfil)

theorem candidatesFor_nodup {env : Env} (date : String) (stp : STP) (vis : List String)
    (avail : ℚ) (hnd : (env.farms.map Farm.id).Nodup) :
    ((candidatesFor env date stp vis avail).map Cand.farm_id).Nodup := by
  unfold candidatesFor
  rw [List.map_map]
  have hsub : List.Sublist ((env.farms.filter
      (fun f => !(vis.contains f.id) && !(is_rain_locked env date f.zone))).map Farm.id)
      (env.farms.map Farm.id) := (List.filter_sublist _).map Farm.id
  exact hnd.sublist hsub

theorem processStp_sum {env : Env} {date : String} {s : STP} {acts : List Action}
    {vis : List String} {acts2 : List Action} {vis2 : List String}
    (h : processStp env date s (acts, vis) = some (acts2, vis2)) :
    ∃ blk, acts2 = acts ++ blk ∧ (∀ a ∈ blk, a.stp_id = s.id ∧ 1 ≤ a.amount_tons) ∧
      (0 ≤ s.current_storage + s.daily_output →
        (blk.map Action.amount_tons).sum ≤ s.current_storage + s.daily_output) := by
  by_cases hb : s.current_storage + s.daily_output < 1.0
  · simp only [processStp, if_pos hb, Option.some.injEq, Prod.mk.injEq] at h
    exact ⟨[], by simp [← h.1], by simp, fun h0 => by simpa using h0⟩
  · simp only [processStp, if_neg hb] at h
    set options := sortByDesc Cand.nci
      (candidatesFor env date s vis (s.current_storage + s.daily_output)) with hopt
    cases hw : acceptWalk s options (s.current_storage + s.daily_output) acts vis with
    | none => rw [hw] at h; cases h
    | some r =>
      obtain ⟨a2, v2, av2⟩ := r
      rw [hw] at h
      simp only [Option.some.injEq, Prod.mk.injEq] at h
      have h1le : (1:ℚ) ≤ s.current_storage + s.daily_output := by
        have := not_lt.mp hb
        calc (1:ℚ) ≤ (1.0:ℚ) := by norm_num
        _ ≤ _ := this
      have hload : ∀ c ∈ options, 1 ≤ c.load_tons := by
        intro c hcmem
        obtain ⟨f, _, _, _, _, hl⟩ := mem_candidatesFor (mem_sortByDesc.mp hcmem)
        rw [hl]
        exact le_min h1le (by norm_num)
      obtain ⟨blk, hacts, hprops, hge, heq⟩ :=
        acceptWalk_sum s options _ acts vis a2 v2 av2 (by linarith) hload hw
      exact ⟨blk, by rw [← h.1, hacts], hprops, fun _ => by linarith⟩

theorem processStp_visited {env : Env} {date : String} {s : STP} {acts : List Action}
    {vis : List String} {acts2 : List Action} {vis2 : List String}
    (hndf : (env.farms.map Farm.id).Nodup)
    (hand : (acts.map Action.farm_id).Nodup) (hin : ∀ a ∈ acts, a.farm_id ∈ vis)
    (h : processStp env date s (acts, vis) = some (acts2, vis2)) :
    ((acts2.map Action.farm_id).Nodup) ∧ (∀ a ∈ acts2, a.farm_id ∈ vis2) := by
  by_cases hb : s.current_storage + s.daily_output < 1.0
  · simp only [processStp, if_pos hb, Option.some.injEq, Prod.mk.injEq] at h
    rw [← h.1, ← h.2]
    exact ⟨hand, hin⟩
  · simp only [processStp, if_neg hb] at h
    set options := sortByDesc Cand.nci
      (candidatesFor env date s vis (s.current_storage + s.daily_output)) with hopt
    cases hw : acceptWalk s options (s.current_storage + s.daily_output) acts vis with
    | none => rw [hw] at h; cases h
    | some r =>
      obtain ⟨a2, v2, av2⟩ := r
      rw [hw] at h
      simp only [Option.some.injEq, Prod.mk.injEq] at h
      have hnv : ∀ c ∈ options, ¬ c.farm_id ∈ vis := by
        intro c hcmem
        obtain ⟨f, _, hcont, _, hfid, _⟩ := mem_candidatesFor (mem_sortByDesc.mp hcmem)
        rw [hfid]
        exact not_mem_of_contains_false hcont
      have hnd : (options.map Cand.farm_id).Nodup := by
        rw [((sortByDesc_perm Cand.nci _).map Cand.farm_id).nodup_iff]
        exact candidatesFor_nodup date s vis _ hndf
      obtain ⟨r1, r2, _⟩ := acceptWalk_visited s options _ acts vis a2 v2 av2 hnv hnd hand hin hw
      exact ⟨by rw [← h.1]; exact r1, by rw [← h.1, ← h.2]; exact r2⟩

theorem processStp_prop {env : Env} {date : String} {s : STP} {acts : List Action}
    {vis : List String} {acts2 : List Action} {vis2 : List String} {P : Action → Prop}
    (hp : ∀ f ∈ env.farms, is_rain_locked env date f.zone = false → ∀ q : ℚ, P ⟨s.id, f.id, q⟩)
    (hacts : ∀ a ∈ acts, P a)
    (h : processStp env date s (acts, vis) = some (acts2, vis2)) :
    ∀ a ∈ acts2, P a := by
  by_cases hb : s.current_storage + s.daily_output < 1.0
  · simp only [processStp, if_pos hb, Option.some.injEq, Prod.mk.injEq] at h
    rw [← h.1]; exact hacts
  · simp only [processStp, if_neg hb] at h
    set options := sortByDesc Cand.nci
      (candidatesFor env date s vis (s.current_storage + s.daily_output)) with hopt
    cases hw : acceptWalk s options (s.current_storage + s.daily_output) acts vis with
    | none => rw [hw] at h; cases h
    | some r =>
      obtain ⟨a2, v2, av2⟩ := r
      rw [hw] at h
      simp only [Option.some.injEq, Prod.mk.injEq] at h
      have hc : ∀ c ∈ options, ∀ q : ℚ, P ⟨s.id, c.farm_id, q⟩ := by
        intro c hcmem q
        obtain ⟨f, hf, _, hlock, hfid, _⟩ := mem_candidatesFor (mem_sortByDesc.mp hcmem)
        rw [hfid]
        exact hp f hf hlock q
      have := acceptWalk_prop s P options _ acts vis a2 v2 av2 hc hacts hw
      rw [← h.1]
      exact this

/-! ### Lemmas about the plant loop of solve_day -/

theorem solve_day_go_sum (env : Env) (date : String) :
    ∀ (l : List STP) (acts : List Action) (vis : List String)
      (acts2 : List Action) (vis2 : List String),
      solve_day_go env date l (acts, vis) = some (acts2, vis2) →
      ∃ ext, acts2 = acts ++ ext ∧
        (∀ a ∈ ext, (∃ s, s ∈ l ∧ a.stp_id = s.id) ∧ 1 ≤ a.amount_tons) ∧
        ((l.map STP.id).Nodup → ∀ s ∈ l, 0 ≤ s.current_storage + s.daily_output →
          ((ext.filter (fun a => a.stp_id == s.id)).map Action.amount_tons).sum ≤
            s.current_storage + s.daily_output) := by
  intro l
  induction l with
  | nil =>
    intro acts vis acts2 vis2 h
    simp only [solve_day_go, Option.some.injEq, Prod.mk.injEq] at h
    exact ⟨[], by simp [← h.1], by simp, by simp⟩
  | cons s rest ih =>
    intro acts vis acts2 vis2 h
    simp only [solve_day_go] at h
    cases hp : processStp env date s (acts, vis) with
    | none => rw [hp] at h; cases h
    | some acc2 =>
      obtain ⟨a1, v1⟩ := acc2
      rw [hp] at h
      obtain ⟨blk, hblk, hbprops, hbsum⟩ := processStp_sum hp
      obtain ⟨ext, hext, heprops, hesum⟩ := ih a1 v1 acts2 vis2 h
      refine ⟨blk ++ ext, by rw [hext, hblk, List.append_assoc], ?_, ?_⟩
      · intro a ha
        rcases List.mem_append.mp ha with hb | he
        · exact ⟨⟨s, List.mem_cons_self s rest, (hbprops a hb).1⟩, (hbprops a hb).2⟩
        · obtain ⟨⟨t, ht, hid⟩, hge⟩ := heprops a he
          exact ⟨⟨t, List.mem_cons_of_mem s ht, hid⟩, hge⟩
      · intro hnd t ht h0
        simp only [List.map_cons, List.nodup_cons] at hnd
        rw [List.filter_append, List.map_append, List.sum_append]
        rcases List.mem_cons.mp ht with hts | htr
        · subst hts
          have hfe : ext.filter (fun a => a.stp_id == t.id) = [] := by
            refine List.filter_eq_nil_iff.mpr ?_
            intro a ha hba
            obtain ⟨⟨u, hu, hau⟩, _⟩ := heprops a ha
            have heq : t.id = u.id := by rw [← beq_iff_eq.mp hba, hau]
            exact hnd.1 (heq ▸ List.mem_map_of_mem STP.id hu)
          have hfb : blk.filter (fun a => a.stp_id == t.id) = blk := by
            refine List.filter_eq_self.mpr ?_
            intro a ha
            exact beq_iff_eq.mpr (hbprops a ha).1
          rw [hfe, hfb]
          simpa using hbsum h0
        · have hfb : blk.filter (fun a => a.stp_id == t.id) = [] := by
            refine List.filter_eq_nil_iff.mpr ?_
            intro a ha hba
            have h1 : a.stp_id = t.id := beq_iff_eq.mp hba
            have h2 : a.stp_id = s.id := (hbprops a ha).1
            have heq : s.id = t.id := by rw [← h2, h1]
            exact hnd.1 (heq ▸ List.mem_map_of_mem STP.id htr)
          rw [hfb]
          simpa using hesum hnd.2 t htr h0

theorem solve_day_go_visited (env : Env) (date : String)
    (hndf : (env.farms.map Farm.id).Nodup) :
    ∀ (l : List STP) (acts : List Action) (vis : List String)
      (acts2 : List Action) (vis2 : List String),
      (acts.map Action.farm_id).Nodup → (∀ a ∈ acts, a.farm_id ∈ vis) →
      solve_day_go env date l (acts, vis) = some (acts2, vis2) →
      (acts2.map Action.farm_id).Nodup := by
  intro l
  induction l with
  | nil =>
    intro acts vis acts2 vis2 hand _ h
    simp only [solve_day_go, Option.some.injEq, Prod.mk.injEq] at h
    rw [← h.1]; exact hand
  | cons s rest ih =>
    intro acts vis acts2 vis2 hand hin h
    simp only [solve_day_go] at h
    cases hp : processStp env date s (acts, vis) with
    | none => rw [hp] at h; cases h
    | some acc2 =>
      obtain ⟨a1, v1⟩ := acc2
      rw [hp] at h
      obtain ⟨hand1, hin1⟩ := processStp_visited hndf hand hin hp
      exact ih a1 v1 acts2 vis2 hand1 hin1 h

theorem solve_day_go_prop (env : Env) (date : String) (P : Action → Prop) (Q : STP → Prop)
    (hp : ∀ (s : STP), Q s → ∀ f, f ∈ env.farms → is_rain_locked env date f.zone = false →
      ∀ q : ℚ, P ⟨s.id, f.id, q⟩) :
    ∀ (l : List STP) (acts : List Action) (vis : List String)
      (acts2 : List Action) (vis2 : List String),
      (∀ s ∈ l, Q s) → (∀ a ∈ acts, P a) →
      solve_day_go env date l (acts, vis) = some (acts2, vis2) →
      ∀ a ∈ acts2, P a := by
  intro l
  induction l with
  | nil =>
    intro acts vis acts2 vis2 _ hacts h
    simp only [solve_day_go, Option.some.injEq, Prod.mk.injEq] at h
    rw [← h.1]; exact hacts
  | cons s rest ih =>
    intro acts vis acts2 vis2 hq hacts h
    simp only [solve_day_go] at h
    cases hpr : processStp env date s (acts, vis) with
    | none => rw [hpr] at h; cases h
    | some acc2 =>
      obtain ⟨a1, v1⟩ := acc2
      rw [hpr] at h
      refine ih a1 v1 acts2 vis2 (fun t ht => hq t (List.mem_cons_of_mem s ht)) ?_ h
      exact processStp_prop
        (fun f hf hl q => hp s (hq s (List.mem_cons_self s rest)) f hf hl q) hacts hpr

/-! ### Lemmas about the simulation engine -/

theorem processActions_append (env : Env) (stps : List STP) (date : String) :
    ∀ (l1 l2 : List Action) (st : Phase1),
      processActions env stps date (l1 ++ l2) st =
        Option.bind (processActions env stps date l1 st)
          (fun st2 => processActions env stps date l2 st2) := by
  intro l1
  induction l1 with
  | nil => intro l2 st; simp [processActions]
  | cons a l1 ih =>
    intro l2 st
    simp only [List.cons_append, processActions]
    cases processAction env stps date st a with
    | none => simp
    | some st2 => exact ih l2 st2

theorem mem_keys_setD {l : List (String × ℚ)} {k : String} {v : ℚ} {x : String}
    (h : x ∈ (setD l k v).map Prod.fst) : x ∈ l.map Prod.fst ∨ x = k := by
  unfold setD at h
  split at h
  · rw [List.map_map] at h
    obtain ⟨p, hp, hpx⟩ := List.mem_map.mp h
    by_cases hb : (p.1 == k) = true
    · right
      simp only [Function.comp_apply, if_pos hb] at hpx
      exact hpx.symm
    · left
      simp only [Function.comp_apply, if_neg hb] at hpx
      exact hpx ▸ List.mem_map_of_mem Prod.fst hp
  · rw [List.map_append] at h
    rcases List.mem_append.mp h with h1 | h2
    · exact Or.inl h1
    · right
      simp only [List.map_cons, List.map_nil, List.mem_singleton] at h2
      exact h2

theorem processActions_ok (env : Env) (stps : List STP) (date : String)
    (hnd : (env.farms.map Farm.id).Nodup) :
    ∀ (acts : List Action) (st : Phase1),
      (∀ a ∈ acts,
        (∃ f, f ∈ env.farms ∧ f.id = a.farm_id ∧ is_rain_locked env date f.zone = false) ∧
        (∃ s, s ∈ stps ∧ s.id = a.stp_id)) →
      ∃ st2, processActions env stps date acts st = some st2 ∧
        st2.banned = st.banned ∧
        (∀ k ∈ st2.farmDel.map Prod.fst,
          k ∈ st.farmDel.map Prod.fst ∨ ∃ f, f ∈ env.farms ∧ f.id = k) := by
  intro acts
  induction acts with
  | nil =>
    intro st _
    exact ⟨st, rfl, rfl, fun k hk => Or.inl hk⟩
  | cons a rest ih =>
    intro st hgood
    obtain ⟨⟨f, hf, hfid, hlock⟩, ⟨s, hsmem, hsid⟩⟩ := hgood a (List.mem_cons_self a rest)
    have hff : findFarm env a.farm_id = some f := by
      rw [← hfid]; exact findFarm_eq_of_mem hnd hf
    have hfs : (findStp stps a.stp_id).isSome := by
      rw [← hsid]; exact findStp_isSome_of_mem hsmem
    obtain ⟨w, hw⟩ := Option.isSome_iff_exists.mp hfs
    have hstep : processAction env stps date st a = some
        { st with
          emissions := st.emissions + f.distances a.stp_id *
            ((⌈a.amount_tons / env.truck_capacity⌉ : ℤ) : ℚ) * env.emission_factor
          farmDel := setD st.farmDel a.farm_id (getD st.farmDel a.farm_id + a.amount_tons)
          stpDisp := setD st.stpDisp a.stp_id (getD st.stpDisp a.stp_id + a.amount_tons)
          delivered := st.delivered + a.amount_tons } := by
      unfold processAction
      rw [hff, hw]
      simp [hlock]
    have hnext : ∀ b ∈ rest,
        (∃ g, g ∈ env.farms ∧ g.id = b.farm_id ∧ is_rain_locked env date g.zone = false) ∧
        (∃ t, t ∈ stps ∧ t.id = b.stp_id) :=
      fun b hb => hgood b (List.mem_cons_of_mem a hb)
    obtain ⟨st2, hrun, hban, hkeys⟩ := ih
      { st with
        emissions := st.emissions + f.distances a.stp_id *
          ((⌈a.amount_tons / env.truck_capacity⌉ : ℤ) : ℚ) * env.emission_factor
        farmDel := setD st.farmDel a.farm_id (getD st.farmDel a.farm_id + a.amount_tons)
        stpDisp := setD st.stpDisp a.stp_id (getD st.stpDisp a.stp_id + a.amount_tons)
        delivered := st.delivered + a.amount_tons } hnext
    refine ⟨st2, ?_, by rw [hban], ?_⟩
    · simp only [processActions, hstep]
      exact hrun
    · intro k hk
      rcases hkeys k hk with hk1 | hk2
      · have hk1b : k ∈ (setD st.farmDel a.farm_id
            (getD st.farmDel a.farm_id + a.amount_tons)).map Prod.fst := hk1
        rcases mem_keys_setD hk1b with hk3 | hk4
        · exact Or.inl hk3
        · exact Or.inr ⟨f, hf, by rw [hfid, hk4]⟩
      · exact Or.inr hk2

theorem farmCredits_isSome (env : Env) (date : String) :
    ∀ (l : List (String × ℚ)) (acc : ℚ × ℚ),
      (∀ k ∈ l.map Prod.fst, (findFarm env k).isSome) →
      (farmCredits env date l acc).isSome := by
  intro l
  induction l with
  | nil => intro acc _; simp [farmCredits]
  | cons p rest ih =>
    intro acc hkeys
    obtain ⟨fid, tons⟩ := p
    have h1 : (findFarm env fid).isSome :=
      hkeys fid (by simp)
    obtain ⟨f, hf⟩ := Option.isSome_iff_exists.mp h1
    simp only [farmCredits, hf]
    exact ih _ (fun k hk => hkeys k (List.mem_cons_of_mem _ hk))

theorem updateStp_fst (env : Env) (disp : List (String × ℚ)) (s : STP) :
    (updateStp env disp s).1 =
      { s with
        current_storage :=
          min s.max_storage (max 0 (s.current_storage + s.daily_output - getD disp s.id)) } := by
  unfold updateStp
  by_cases hc : max 0 (s.current_storage + s.daily_output - getD disp s.id) > s.max_storage
  · rw [if_pos hc, min_eq_left (le_of_lt hc)]
  · rw [if_neg hc, min_eq_right (not_lt.mp hc)]

theorem updateStp_ovf (env : Env) (disp : List (String × ℚ)) (s : STP) :
    (updateStp env disp s).2.1 =
      max 0 (max 0 (s.current_storage + s.daily_output - getD disp s.id) - s.max_storage) := by
  unfold updateStp
  by_cases hc : max 0 (s.current_storage + s.daily_output - getD disp s.id) > s.max_storage
  · rw [if_pos hc, max_eq_right (le_of_lt (sub_pos.mpr hc))]
  · rw [if_neg hc, max_eq_left (sub_nonpos.mpr (not_lt.mp hc))]

theorem updateStp_pen (env : Env) (disp : List (String × ℚ)) (s : STP) :
    (updateStp env disp s).2.2 =
      max 0 (max 0 (s.current_storage + s.daily_output - getD disp s.id) - s.max_storage) *
        env.overflow_penalty := by
  unfold updateStp
  by_cases hc : max 0 (s.current_storage + s.daily_output - getD disp s.id) > s.max_storage
  · rw [if_pos hc, max_eq_right (le_of_lt (sub_pos.mpr hc))]
  · rw [if_neg hc, max_eq_left (sub_nonpos.mpr (not_lt.mp hc)), zero_mul]

/-! ### The rain-lock window sum, stated the way the specification words it -/

/-- The specification phrasing of the rain-lock quantity: the sum of
forecast rainfall over the 5-day lookahead window starting at the date,
with days past the end of available data contributing 0, and an unknown
date contributing an all-zero window. Written independently of the
take-and-pad computation of `get_weather_forecast` so that the two can be
compared. -/
def specWindowRain (env : Env) (date zone : String) : ℚ :=
  match env.weather.findIdx? (fun r => r.1 == date) with
  | none => 0
  | some i =>
      ((List.range 5).map (fun k =>
        match env.weather[i + k]? with
        | some r => r.2 zone
        | none => 0)).sum

theorem sum_take_eq_sum_range {α : Type} (f : α → ℚ) :
    ∀ (m : List α) (n : Nat),
      ((m.take n).map f).sum =
        ((List.range n).map (fun k =>
          match m[k]? with
          | some r => f r
          | none => 0)).sum := by
  intro m
  induction m with
  | nil =>
    intro n
    simp only [List.take_nil, List.map_nil, List.sum_nil]
    refine (List.sum_eq_zero ?_).symm
    intro x hx
    obtain ⟨k, _, hk⟩ := List.mem_map.mp hx
    simpa using hk.symm
  | cons x xs ih =>
    intro n
    cases n with
    | zero => simp
    | succ n =>
      rw [List.take_succ_cons, List.map_cons, List.sum_cons, List.range_succ_eq_map,
        List.map_cons, List.sum_cons, List.map_map, ih n]
      congr 1
      · simp
      · refine congrArg List.sum (List.map_congr_left ?_)
        intro k _
        simp [Function.comp, List.getElem?_cons_succ]

theorem forecast_sum_eq_specWindowRain (env : Env) (date zone : String)
    (hw : env.forecast_window = 5) :
    (get_weather_forecast env date zone env.forecast_window).sum =
      specWindowRain env date zone := by
  rw [hw]
  unfold get_weather_forecast specWindowRain
  cases hidx : env.weather.findIdx? (fun r => r.1 == date) with
  | none => simp
  | some i =>
    rw [List.sum_append]
    have hrep : (List.replicate (5 - (((env.weather.drop i).take 5).map
        (fun r => r.2 zone)).length) (0:ℚ)).sum = 0 := by
      exact List.sum_eq_zero (fun x hx => (List.eq_of_mem_replicate hx))
    rw [hrep, add_zero, sum_take_eq_sum_range]
    refine congrArg List.sum (List.map_congr_left ?_)
    intro k _
    rw [List.getElem?_drop]
    cases env.weather[i + k]? <;> rfl

/-! ### Claim theorems -/

/-- C7: for every date and zone, `is_rain_locked` returns true exactly when
the sum of forecast rainfall over the 5-day lookahead window starting at
the date (days past the end of available data contributing 0) strictly
exceeds the 30 mm threshold; in particular a window summing to exactly
30 mm is not locked while one summing to 30.01 mm is locked. Stated for
any configuration with the configured window 5 and threshold 30. -/
theorem C7_rain_lock_window (env : Env) (date zone : String)
    (hw : env.forecast_window = 5) (ht : env.rain_threshold = 30) :
    (is_rain_locked env date zone = true ↔ specWindowRain env date zone > 30) ∧
    (specWindowRain env date zone = 30 → is_rain_locked env date zone = false) ∧
    (specWindowRain env date zone = 30.01 → is_rain_locked env date zone = true) := by
  have hiff : is_rain_locked env date zone = true ↔ specWindowRain env date zone > 30 := by
    unfold is_rain_locked
    rw [decide_eq_true_eq, forecast_sum_eq_specWindowRain env date zone hw, ht]
  refine ⟨hiff, ?_, ?_⟩
  · intro h30
    cases hlk : is_rain_locked env date zone with
    | false => rfl
    | true =>
      have h2 := hiff.mp hlk
      rw [h30] at h2
      exact absurd h2 (lt_irrefl 30)
  · intro h
    refine hiff.mpr ?_
    rw [h]
    norm_num

/-- C8: the Net Carbon Impact of a candidate decomposes as soil benefit
plus nitrogen offset benefit minus transport cost minus leaching cost,
with soil benefit `load × 1.37 × 200`, nitrogen offset
`min(load × n_content, demand × area) × 5.0`, transport
`dist × 0.9 × ceil(load/10)` and leaching
`max(0, load × n_content − demand × area × 1.10) × 10.0` when the
configured application buffer is 10%; a farm with no demand row for the
date contributes per-hectare demand 0. -/
theorem C8_nci_formula (env : Env) (date : String)
    (dist demand_kg_ha area_ha load_tons : ℚ) (fid : String)
    (hbuf : env.buffer_percent = 0.1) :
    nciOf env dist demand_kg_ha area_ha load_tons =
      load_tons * 1.37 * 200
        + min (load_tons * env.n_content) (demand_kg_ha * area_ha) * 5.0
        - dist * 0.9 * ((⌈load_tons / 10.0⌉ : ℤ) : ℚ)
        - max 0 (load_tons * env.n_content - demand_kg_ha * area_ha * 1.10) * 10.0 ∧
    ((∀ r ∈ env.nDemand, r.1 ≠ date) → get_daily_demand_per_ha env date fid = 0) := by
  constructor
  · unfold nciOf
    rw [hbuf]
    have h1 : ((1:ℚ) + 0.1) = 1.10 := by norm_num
    rw [h1]
    norm_num
  · intro hnone
    unfold get_daily_demand_per_ha
    have hfind : env.nDemand.find? (fun r => r.1 == date) = none := by
      rw [List.find?_eq_none]
      intro r hr
      simpa using hnone r hr
    rw [hfind]

/-- C1: the end-of-day state update of `run_day` sets each plant storage
to `max(0, current_storage + daily_output − dispatched)` clamped at
`max_storage`, reports the clamped excess in the overflow total (penalized
at the overflow rate), never silently dropping it, and consequently after
any successful `run_day` every plant with nonnegative capacity satisfies
`0 ≤ current_storage ≤ max_storage`. -/
theorem C1_storage_clamped (env : Env) (stps : List STP) (disp : List (String × ℚ))
    (date : String) (acts : List Action) :
    (updateStps env stps disp).1 = stps.map (fun s =>
      { s with
        current_storage :=
          min s.max_storage (max 0 (s.current_storage + s.daily_output - getD disp s.id)) }) ∧
    (updateStps env stps disp).2.1 = (stps.map (fun s =>
      max 0 (max 0 (s.current_storage + s.daily_output - getD disp s.id) - s.max_storage))).sum ∧
    (updateStps env stps disp).2.2 = (stps.map (fun s =>
      max 0 (max 0 (s.current_storage + s.daily_output - getD disp s.id) - s.max_storage)
        * env.overflow_penalty)).sum ∧
    (∀ stps2 res, run_day env stps date acts = some (stps2, res) →
      ∀ s2 ∈ stps2, 0 ≤ s2.max_storage →
        0 ≤ s2.current_storage ∧ s2.current_storage ≤ s2.max_storage) := by
  refine ⟨?_, ?_, ?_, ?_⟩
  · exact List.map_congr_left (fun s _ => updateStp_fst env disp s)
  · exact congrArg List.sum (List.map_congr_left (fun s _ => updateStp_ovf env disp s))
  · exact congrArg List.sum (List.map_congr_left (fun s _ => updateStp_pen env disp s))
  · intro stps2 res hrun s2 hs2 hmax
    unfold run_day at hrun
    cases hpa : processActions env stps date acts initPhase1 with
    | none => rw [hpa] at hrun; cases hrun
    | some st =>
      simp only [hpa] at hrun
      cases hfc : farmCredits env date st.farmDel (0, 0) with
      | none => simp only [hfc] at hrun; cases hrun
      | some cp =>
        simp only [hfc, Option.some.injEq, Prod.mk.injEq] at hrun
        rw [← hrun.1] at hs2
        unfold updateStps at hs2
        obtain ⟨s, _, hse⟩ := List.mem_map.mp hs2
        rw [updateStp_fst env st.stpDisp s] at hse
        have hmax2 : s2.max_storage = s.max_storage := by rw [← hse]
        have hcur : s2.current_storage =
            min s.max_storage (max 0 (s.current_storage + s.daily_output -
              getD st.stpDisp s.id)) := by rw [← hse]
        rw [hmax2] at hmax ⊢
        rw [hcur]
        exact ⟨le_min hmax (le_max_left 0 _), min_le_left _ _⟩

/-- C9: `run_day` changes nothing except the `current_storage` field of
the plants: the identity, production rate, capacity and coordinates of
every plant are unchanged (and the solver, embedded as a pure function
returning only an action list, mutates no state at all). -/
theorem C9_run_day_frame (env : Env) (stps : List STP) (date : String)
    (acts : List Action) (stps2 : List STP) (res : DailyResult)
    (h : run_day env stps date acts = some (stps2, res)) :
    stps2.map (fun s => (s.id, s.daily_output, s.max_storage, s.lat, s.lon)) =
      stps.map (fun s => (s.id, s.daily_output, s.max_storage, s.lat, s.lon)) := by
  unfold run_day at h
  cases hpa : processActions env stps date acts initPhase1 with
  | none => rw [hpa] at h; cases h
  | some st =>
    simp only [hpa] at h
    cases hfc : farmCredits env date st.farmDel (0, 0) with
    | none => simp only [hfc] at h; cases h
    | some cp =>
      simp only [hfc, Option.some.injEq, Prod.mk.injEq] at h
      rw [← h.1]
      unfold updateStps
      rw [List.map_map]
      refine List.map_congr_left ?_
      intro s _
      rw [Function.comp_apply, updateStp_fst env st.stpDisp s]

/-- C3: appending one rain-locked action to the per-action loop of
`run_day` increments the rejection counter by one, still charges its
transport emissions `distance × ceil(tons/truck_capacity) ×
emission_factor`, charges its tonnage at the overflow rate instead of any
credit, leaves delivered tons unchanged, leaves the farm-delivery
aggregation unchanged (so the farm nitrogen-uptake and leaching pass,
which reads only `farmDel`, is unaffected), and still debits the source
plant dispatch total by the tonnage: the material is lost, not returned. -/
theorem C3_rain_locked_action (env : Env) (stps : List STP) (date : String)
    (acts : List Action) (a : Action) (st0 st : Phase1) (f : Farm)
    (h1 : processActions env stps date acts st0 = some st)
    (h2 : findFarm env a.farm_id = some f)
    (h3 : (findStp stps a.stp_id).isSome)
    (h4 : is_rain_locked env date f.zone = true) :
    processActions env stps date (acts ++ [a]) st0 = some
      { st with
        penalties := st.penalties + a.amount_tons * env.overflow_penalty
        banned := st.banned + 1
        emissions := st.emissions + f.distances a.stp_id *
          ((⌈a.amount_tons / env.truck_capacity⌉ : ℤ) : ℚ) * env.emission_factor
        stpDisp := setD st.stpDisp a.stp_id (getD st.stpDisp a.stp_id + a.amount_tons) } := by
  rw [processActions_append, h1]
  obtain ⟨w, hw⟩ := Option.isSome_iff_exists.mp h3
  show processActions env stps date [a] st = _
  simp only [processActions, processAction, h2, hw, h4]
  rfl

/-- Concrete farm for the zero-capacity scenario: one farm, never
rain-locked (no weather rows at all). -/
def C2Farm : Farm :=
  { id := "F1", zone := "Z1", area_ha := 2, lat := 0, lon := 0, distances := fun _ => 5 }

/-- Concrete environment for the zero-capacity scenario. -/
def C2Env : Env :=
  { farms := [C2Farm], weather := [], nDemand := []
    truck_capacity := 10, emission_factor := 0.9, n_content := 5
    synthetic_credit := 5, soil_credit := 0.2, leaching_penalty := 10
    buffer_percent := 0.1, rain_threshold := 30, overflow_penalty := 1000
    forecast_window := 5 }

/-- Concrete plant with `max_storage = 0`, five tons of daily production
(so at least 1.0 ton available) and an eligible farm in reach. -/
def C2Stp : STP :=
  { id := "S1", daily_output := 5, max_storage := 0, lat := 0, lon := 0, current_storage := 0 }

/-- C2 counterexample: with a plant of `max_storage = 0` holding 5 tons of
available material and one unvisited, non-rain-locked farm, `solve_day`
does NOT complete: the acceptance walk evaluates
`current_storage / max_storage` unguarded and the ZeroDivisionError is
modelled by `none`, refuting the claim that no division-by-zero is
reachable. -/
theorem C2_counterexample : solve_day C2Env [C2Stp] "2025-01-01" = none := by
  norm_num [solve_day, solve_day_go, processStp, candidatesFor, acceptWalk, sortByDesc,
    insertByDesc, nciOf, is_rain_locked, get_weather_forecast, get_daily_demand_per_ha,
    triageKey, C2Env, C2Stp, C2Farm]

/-- C2 (amended): the triage sort key does treat a plant with
`max_storage = 0` as fill ratio 0 (never prioritized), but the acceptance
walk divides by `max_storage` unguarded, so whenever such a plant has at
least 1.0 ton available and at least one unvisited, non-rain-locked farm
exists, `solve_day` aborts with a division-by-zero (modelled as `none`)
instead of completing. -/
theorem C2_zero_capacity_amended (env : Env) (s : STP) (date : String) :
    (s.max_storage = 0 → triageKey s = 0) ∧
    (s.max_storage = 0 → 1 ≤ s.current_storage + s.daily_output →
      (∃ f ∈ env.farms, is_rain_locked env date f.zone = false) →
      solve_day env [s] date = none) := by
  constructor
  · intro h0
    unfold triageKey
    rw [h0]
    simp
  · intro h0 hav hex
    obtain ⟨f, hf, hlock⟩ := hex
    have hlt : ¬ (s.current_storage + s.daily_output < 1.0) := by
      rw [show (1.0:ℚ) = 1 by norm_num]
      exact not_lt.mpr hav
    have hne : candidatesFor env date s [] (s.current_storage + s.daily_output) ≠ [] :=
      candidatesFor_ne_nil hf rfl hlock
    have hps : processStp env date s ([], []) = none := by
      cases hcs : sortByDesc Cand.nci
          (candidatesFor env date s [] (s.current_storage + s.daily_output)) with
      | nil =>
        exfalso
        apply hne
        have hlen := length_sortByDesc Cand.nci
          (candidatesFor env date s [] (s.current_storage + s.daily_output))
        rw [hcs] at hlen
        exact List.eq_nil_of_length_eq_zero hlen.symm
      | cons c cs =>
        simp only [processStp, if_neg hlt, hcs]
        simp only [acceptWalk, if_neg hlt, if_pos h0]
    unfold solve_day
    have hsort : sortByDesc triageKey [s] = [s] := rfl
    rw [hsort]
    simp only [solve_day_go, hps]
    rfl

/-- C4: per-plant acceptance in `solve_day` walks the NCI-sorted
candidates and accepts while the NCI is positive or the fill ratio
exceeds 0.8, stopping at the first candidate failing both. Consequently a
plant above 0.8 fill with at least 1.0 ton available and at least one
eligible farm dispatches at least one delivery (even when every candidate
NCI is negative), while a plant at or below 0.8 fill whose best candidate
NCI is nonpositive emits no Action for the day. -/
theorem C4_acceptance_walk (env : Env) (date : String) (stp : STP)
    (acts : List Action) (vis : List String) :
    ((0 < stp.max_storage) → (stp.current_storage / stp.max_storage > 0.8) →
      (1 ≤ stp.current_storage + stp.daily_output) →
      (∃ f ∈ env.farms, vis.contains f.id = false ∧ is_rain_locked env date f.zone = false) →
      ∃ r, processStp env date stp (acts, vis) = some r ∧ acts.length < r.1.length) ∧
    ((stp.max_storage ≠ 0) → ¬(stp.current_storage / stp.max_storage > 0.8) →
      (∀ c ∈ candidatesFor env date stp vis (stp.current_storage + stp.daily_output),
        c.nci ≤ 0) →
      processStp env date stp (acts, vis) = some (acts, vis)) := by
  constructor
  · intro hpos hfill hav hex
    obtain ⟨f, hf, hcont, hlock⟩ := hex
    have hm0 : stp.max_storage ≠ 0 := ne_of_gt hpos
    have hlt : ¬ (stp.current_storage + stp.daily_output < 1.0) := by
      rw [show (1.0:ℚ) = 1 by norm_num]
      exact not_lt.mpr hav
    have hne : candidatesFor env date stp vis (stp.current_storage + stp.daily_output) ≠ [] :=
      candidatesFor_ne_nil hf hcont hlock
    cases hcs : sortByDesc Cand.nci
        (candidatesFor env date stp vis (stp.current_storage + stp.daily_output)) with
    | nil =>
      exfalso
      apply hne
      have hlen := length_sortByDesc Cand.nci
        (candidatesFor env date stp vis (stp.current_storage + stp.daily_output))
      rw [hcs] at hlen
      exact List.eq_nil_of_length_eq_zero hlen.symm
    | cons c cs =>
      have hsome := acceptWalk_isSome stp hm0 cs
        (stp.current_storage + stp.daily_output -
          min (stp.current_storage + stp.daily_output) c.load_tons)
        (acts ++ [⟨stp.id, c.farm_id,
          min (stp.current_storage + stp.daily_output) c.load_tons⟩])
        (c.farm_id :: vis)
      obtain ⟨r3, hr3⟩ := Option.isSome_iff_exists.mp hsome
      obtain ⟨a2, v2, av2⟩ := r3
      have hwalk : acceptWalk stp (c :: cs) (stp.current_storage + stp.daily_output)
          acts vis = some (a2, v2, av2) := by
        simp only [acceptWalk, if_neg hlt, if_neg hm0, if_pos (Or.inr hfill)]
        exact hr3
      obtain ⟨blk, hblk⟩ := acceptWalk_extends stp cs _ _ _ _ _ _ hr3
      refine ⟨(a2, v2), ?_, ?_⟩
      · simp only [processStp, if_neg hlt, hcs, hwalk]
      · show acts.length < a2.length
        rw [hblk]
        simp only [List.length_append, List.length_singleton]
        omega
  · intro hm0 hfill hnci
    by_cases hlt : stp.current_storage + stp.daily_output < 1.0
    · simp only [processStp, if_pos hlt]
    · cases hcs : sortByDesc Cand.nci
          (candidatesFor env date stp vis (stp.current_storage + stp.daily_output)) with
      | nil =>
        simp only [processStp, if_neg hlt, hcs, acceptWalk]
      | cons c cs =>
        have hc : c.nci ≤ 0 := hnci c (mem_sortByDesc.mp
          (by rw [hcs]; exact List.mem_cons_self c cs))
        have hcond : ¬ (c.nci > 0 ∨ stp.current_storage / stp.max_storage > 0.8) := by
          push_neg
          exact ⟨hc, not_lt.mp hfill⟩
        simp only [processStp, if_neg hlt, hcs, acceptWalk, if_neg hm0, if_neg hcond]

/-- C5: every Action emitted by `solve_day` carries at least the 1.0-ton
negligible-load threshold (so in particular tons > 0), and for plants
with distinct ids and nonnegative available material, the total tonnage
sourced from one plant never exceeds its available material
`current_storage + daily_output` at the start of the day. -/
theorem C5_tonnage_feasible (env : Env) (stps : List STP) (date : String)
    (acts : List Action) (h : solve_day env stps date = some acts) :
    (∀ a ∈ acts, 1 ≤ a.amount_tons) ∧
    ((stps.map STP.id).Nodup → ∀ s ∈ stps, 0 ≤ s.current_storage + s.daily_output →
      ((acts.filter (fun a => a.stp_id == s.id)).map Action.amount_tons).sum ≤
        s.current_storage + s.daily_output) := by
  unfold solve_day at h
  cases hgo : solve_day_go env date (sortByDesc triageKey stps) ([], []) with
  | none => rw [hgo] at h; cases h
  | some acc =>
    obtain ⟨acts0, vis0⟩ := acc
    rw [hgo] at h
    simp only [Option.map_some', Option.some.injEq] at h
    obtain ⟨ext, hext, hprops, hsum⟩ :=
      solve_day_go_sum env date (sortByDesc triageKey stps) [] [] acts0 vis0 hgo
    simp only [List.nil_append] at hext
    have hacts : acts = ext := by rw [← h, hext]
    constructor
    · intro a ha
      exact (hprops a (hacts ▸ ha)).2
    · intro hnd s hs h0
      have hnd2 : ((sortByDesc triageKey stps).map STP.id).Nodup :=
        ((sortByDesc_perm triageKey stps).map STP.id).nodup_iff.mpr hnd
      have hs2 : s ∈ sortByDesc triageKey stps := mem_sortByDesc.mpr hs
      rw [hacts]
      exact hsum hnd2 s hs2 h0

/-- C6: in the Action list of one `solve_day` call each farm appears as a
destination at most once (given the farm registry has distinct ids): a
farm accepted by one plant enters the visited set and is excluded from
every later candidate set. -/
theorem C6_farm_at_most_once (env : Env) (stps : List STP) (date : String)
    (acts : List Action) (h : solve_day env stps date = some acts)
    (hndf : (env.farms.map Farm.id).Nodup) :
    (acts.map Action.farm_id).Nodup := by
  unfold solve_day at h
  cases hgo : solve_day_go env date (sortByDesc triageKey stps) ([], []) with
  | none => rw [hgo] at h; cases h
  | some acc =>
    obtain ⟨acts0, vis0⟩ := acc
    rw [hgo] at h
    simp only [Option.map_some', Option.some.injEq] at h
    have := solve_day_go_visited env date hndf (sortByDesc triageKey stps) [] [] acts0 vis0
      (by simp) (by simp) hgo
    rw [← h]
    exact this

/-- C10: feeding the Action list of `solve_day` unchanged into `run_day`
for the same date and data never trips the rain-lock rejection: the run
succeeds and its `banned_actions` counter is 0, because the solver filters
candidates with the very same `is_rain_locked` predicate the simulator
re-applies per action. -/
theorem C10_solver_actions_never_banned (env : Env) (stps : List STP) (date : String)
    (acts : List Action) (h : solve_day env stps date = some acts)
    (hndf : (env.farms.map Farm.id).Nodup) :
    ∃ stps2 res, run_day env stps date acts = some (stps2, res) ∧
      res.banned_actions = 0 := by
  have hgood : ∀ a ∈ acts,
      (∃ f, f ∈ env.farms ∧ f.id = a.farm_id ∧ is_rain_locked env date f.zone = false) ∧
      (∃ s, s ∈ stps ∧ s.id = a.stp_id) := by
    unfold solve_day at h
    cases hgo : solve_day_go env date (sortByDesc triageKey stps) ([], []) with
    | none => rw [hgo] at h; cases h
    | some acc =>
      obtain ⟨acts0, vis0⟩ := acc
      rw [hgo] at h
      simp only [Option.map_some', Option.some.injEq] at h
      have hall := solve_day_go_prop env date
        (fun a =>
          (∃ f, f ∈ env.farms ∧ f.id = a.farm_id ∧ is_rain_locked env date f.zone = false) ∧
          (∃ s, s ∈ stps ∧ s.id = a.stp_id))
        (fun s => s ∈ stps)
        (fun s hsm f hf hl q => ⟨⟨f, hf, rfl, hl⟩, ⟨s, hsm, rfl⟩⟩)
        (sortByDesc triageKey stps)
        [] [] acts0 vis0
        (fun t ht => mem_sortByDesc.mp ht)
        (by simp) hgo
      intro a ha
      exact hall a (h ▸ ha)
  obtain ⟨st2, hpa, hban, hkeys⟩ :=
    processActions_ok env stps date hndf acts initPhase1 hgood
  have hfcs : (farmCredits env date st2.farmDel (0, 0)).isSome := by
    refine farmCredits_isSome env date st2.farmDel (0, 0) ?_
    intro k hk
    rcases hkeys k hk with hk1 | ⟨f, hf, hfk⟩
    · exact absurd hk1 (List.not_mem_nil k)
    · rw [← hfk]
      rw [findFarm_eq_of_mem hndf hf]
      rfl
  obtain ⟨cp, hcp⟩ := Option.isSome_iff_exists.mp hfcs
  cases hrd : run_day env stps date acts with
  | none =>
    exfalso
    unfold run_day at hrd
    simp only [hpa] at hrd
    simp only [hcp] at hrd
    cases hrd
  | some pr =>
    obtain ⟨stps2, res⟩ := pr
    refine ⟨stps2, res, rfl, ?_⟩
    unfold run_day at hrd
    simp only [hpa] at hrd
    simp only [hcp, Option.some.injEq, Prod.mk.injEq] at hrd
    rw [← hrd.2]
    rw [hban]
    rfl

/-! ### Concrete data for the witnesses -/

def wrow : String → ℚ := fun z => if z == "Z2" then 50 else if z == "Z3" then 6.002 else 6

def WF1 : Farm := { id := "F1", zone := "Z1", area_ha := 2, lat := 0, lon := 0, distances := fun _ => 5 }

def WF2 : Farm := { id := "F2", zone := "Z2", area_ha := 3, lat := 0, lon := 0, distances := fun _ => 4 }

def WEnv : Env :=
  { farms := [WF1, WF2]
    weather := [("2025-01-01", wrow), ("2025-01-02", wrow), ("2025-01-03", wrow),
      ("2025-01-04", wrow), ("2025-01-05", wrow)]
    nDemand := [("2025-01-01", fun f => if f == "F1" then 10 else 0)]
    truck_capacity := 10, emission_factor := 0.9, n_content := 5
    synthetic_credit := 5, soil_credit := 0.2, leaching_penalty := 10
    buffer_percent := 0.1, rain_threshold := 30, overflow_penalty := 1000
    forecast_window := 5 }

def WS1 : STP := { id := "S1", daily_output := 5, max_storage := 100, lat := 0, lon := 0, current_storage := 10 }

def WAct : Action := { stp_id := "S1", farm_id := "F1", amount_tons := 10 }

theorem WEnv_Z1_unlocked : is_rain_locked WEnv "2025-01-01" "Z1" = false := by
  simp [is_rain_locked, get_weather_forecast, WEnv, wrow]
  norm_num

theorem WEnv_Z2_locked : is_rain_locked WEnv "2025-01-01" "Z2" = true := by
  simp [is_rain_locked, get_weather_forecast, WEnv, wrow]
  norm_num

theorem WEnv_farms_nodup : (WEnv.farms.map Farm.id).Nodup := by
  simp [WEnv, WF1, WF2]

theorem WEnv_solve : solve_day WEnv [WS1] "2025-01-01" = some [WAct] := by
  try simp [solve_day, solve_day_go, processStp, candidatesFor, acceptWalk,
    sortByDesc, insertByDesc, nciOf, is_rain_locked, get_weather_forecast,
    get_daily_demand_per_ha, triageKey, WEnv, WS1, WF1, WF2, wrow, WAct,
    List.filter_cons, List.filter_nil]
  try norm_num [solve_day, solve_day_go, processStp, candidatesFor, acceptWalk,
    sortByDesc, insertByDesc, nciOf, is_rain_locked, get_weather_forecast,
    get_daily_demand_per_ha, triageKey, WEnv, WS1, WF1, WF2, wrow, WAct]
  try simp [solve_day, solve_day_go, processStp, candidatesFor, acceptWalk,
    sortByDesc, insertByDesc, nciOf, is_rain_locked, get_weather_forecast,
    get_daily_demand_per_ha, triageKey, WEnv, WS1, WF1, WF2, wrow, WAct]
  try norm_num [solve_day, solve_day_go, processStp, candidatesFor, acceptWalk,
    sortByDesc, insertByDesc, nciOf, is_rain_locked, get_weather_forecast,
    get_daily_demand_per_ha, triageKey, WEnv, WS1, WF1, WF2, wrow, WAct]

theorem WEnv_run : run_day WEnv [WS1] "2025-01-01" [WAct] = some
    ([{ WS1 with current_storage := 5 }],
     { date := "2025-01-01", credits := 2100, emissions := 4.5, penalties := 280,
       net_score := 1815.5, delivered_tons := 10, overflow_tons := 0, banned_actions := 0 }) := by
  try simp [run_day, processActions, processAction, farmCredits, updateStps, updateStp,
    findFarm, findStp, getD, setD, initPhase1, is_rain_locked, get_weather_forecast,
    get_daily_demand_per_ha, WEnv, WS1, WF1, WF2, wrow, WAct, List.filter_cons, List.filter_nil]
  try norm_num [run_day, processActions, processAction, farmCredits, updateStps, updateStp,
    findFarm, findStp, getD, setD, initPhase1, is_rain_locked, get_weather_forecast,
    get_daily_demand_per_ha, WEnv, WS1, WF1, WF2, wrow, WAct]
  try simp [run_day, processActions, processAction, farmCredits, updateStps, updateStp,
    findFarm, findStp, getD, setD, initPhase1, is_rain_locked, get_weather_forecast,
    get_daily_demand_per_ha, WEnv, WS1, WF1, WF2, wrow, WAct]
  try norm_num [run_day, processActions, processAction, farmCredits, updateStps, updateStp,
    findFarm, findStp, getD, setD, initPhase1, is_rain_locked, get_weather_forecast,
    get_daily_demand_per_ha, WEnv, WS1, WF1, WF2, wrow, WAct]

def C4Farm : Farm := { id := "F9", zone := "Z1", area_ha := 2, lat := 0, lon := 0, distances := fun _ => 10000 }

def C4Env : Env := { WEnv with farms := [C4Farm], nDemand := [] }

def WS2 : STP := { id := "S2", daily_output := 0, max_storage := 10, lat := 0, lon := 0, current_storage := 9 }

def WS3 : STP := { id := "S3", daily_output := 0, max_storage := 10, lat := 0, lon := 0, current_storage := 2 }

theorem C4Env_Z1_unlocked : is_rain_locked C4Env "2025-01-01" "Z1" = false := by
  simp [is_rain_locked, get_weather_forecast, C4Env, WEnv, wrow]
  norm_num

theorem C4Env_nci_neg : ∀ c ∈ candidatesFor C4Env "2025-01-01" WS3 []
    (WS3.current_storage + WS3.daily_output), c.nci ≤ 0 := by
  intro c hc
  simp [candidatesFor, C4Env, C4Farm, WEnv, nciOf, get_daily_demand_per_ha,
    List.filter_cons, List.filter_nil, C4Env_Z1_unlocked, WS3, is_rain_locked,
    get_weather_forecast, wrow] at hc
  obtain ⟨f, ⟨hle, hf⟩, hcand⟩ := hc
  subst hf
  rw [← hcand]
  have h1 : ((2:ℚ) ⊓ 10.0) = 2 := by norm_num
  have h2 : (⌈(2:ℚ) / 10.0⌉ : ℤ) = 1 := by
    rw [Int.ceil_eq_iff]; norm_num
  simp only [h1, h2]
  norm_num

/-! ### Witnesses -/

theorem C7_rain_lock_window_witness :
    is_rain_locked WEnv "2025-01-01" "Z3" = true ∧
    is_rain_locked WEnv "2025-01-01" "Z1" = false :=
  ⟨(C7_rain_lock_window WEnv "2025-01-01" "Z3" rfl rfl).2.2
      (by simp [specWindowRain, WEnv, wrow, List.range_succ]; norm_num),
   (C7_rain_lock_window WEnv "2025-01-01" "Z1" rfl rfl).2.1
      (by simp [specWindowRain, WEnv, wrow, List.range_succ]; norm_num)⟩

theorem C8_nci_formula_witness :
    nciOf WEnv 5 10 2 10 = 10 * 1.37 * 200
      + min (10 * WEnv.n_content) (10 * 2) * 5.0
      - 5 * 0.9 * ((⌈(10:ℚ) / 10.0⌉ : ℤ) : ℚ)
      - max 0 (10 * WEnv.n_content - 10 * 2 * 1.10) * 10.0 ∧
    get_daily_demand_per_ha WEnv "1999-01-01" "F1" = 0 :=
  ⟨(C8_nci_formula WEnv "1999-01-01" 5 10 2 10 "F1" rfl).1,
   (C8_nci_formula WEnv "1999-01-01" 5 10 2 10 "F1" rfl).2
      (by intro r hr; simp [WEnv] at hr; rw [hr]; simp)⟩

theorem C1_storage_clamped_witness :
    0 ≤ ({ WS1 with current_storage := 5 } : STP).current_storage ∧
    ({ WS1 with current_storage := 5 } : STP).current_storage ≤
      ({ WS1 with current_storage := 5 } : STP).max_storage :=
  (C1_storage_clamped WEnv [WS1] [("S1", 10)] "2025-01-01" [WAct]).2.2.2
    [{ WS1 with current_storage := 5 }]
    { date := "2025-01-01", credits := 2100, emissions := 4.5, penalties := 280,
      net_score := 1815.5, delivered_tons := 10, overflow_tons := 0, banned_actions := 0 }
    WEnv_run { WS1 with current_storage := 5 } (List.mem_singleton.mpr rfl)
    (by norm_num [WS1])

theorem C9_run_day_frame_witness :
    ([({ WS1 with current_storage := 5 } : STP)]).map
        (fun s => (s.id, s.daily_output, s.max_storage, s.lat, s.lon)) =
      ([WS1]).map (fun s => (s.id, s.daily_output, s.max_storage, s.lat, s.lon)) :=
  C9_run_day_frame WEnv [WS1] "2025-01-01" [WAct] _ _ WEnv_run

def WBannedAct : Action := { stp_id := "S1", farm_id := "F2", amount_tons := 10 }

theorem C3_rain_locked_action_witness :
    processActions WEnv [WS1] "2025-01-01" ([] ++ [WBannedAct]) initPhase1 = some
      { initPhase1 with
        penalties := initPhase1.penalties + WBannedAct.amount_tons * WEnv.overflow_penalty
        banned := initPhase1.banned + 1
        emissions := initPhase1.emissions + WF2.distances WBannedAct.stp_id *
          ((⌈WBannedAct.amount_tons / WEnv.truck_capacity⌉ : ℤ) : ℚ) * WEnv.emission_factor
        stpDisp := setD initPhase1.stpDisp WBannedAct.stp_id
          (getD initPhase1.stpDisp WBannedAct.stp_id + WBannedAct.amount_tons) } :=
  C3_rain_locked_action WEnv [WS1] "2025-01-01" [] WBannedAct initPhase1 initPhase1 WF2
    rfl (by simp [findFarm, WEnv, WF1, WF2, WBannedAct])
    (by simp [findStp, WS1, WBannedAct]) WEnv_Z2_locked

theorem C2_zero_capacity_amended_witness :
    triageKey C2Stp = 0 ∧ solve_day C2Env [C2Stp] "2025-01-01" = none :=
  ⟨(C2_zero_capacity_amended C2Env C2Stp "2025-01-01").1 rfl,
   (C2_zero_capacity_amended C2Env C2Stp "2025-01-01").2 rfl (by norm_num [C2Stp])
     ⟨C2Farm, by simp [C2Env],
      by simp [is_rain_locked, get_weather_forecast, C2Env, C2Farm]⟩⟩

theorem C4_acceptance_walk_witness :
    (processStp C4Env "2025-01-01" WS2 ([], [])).isSome = true ∧
    processStp C4Env "2025-01-01" WS3 ([], []) = some ([], []) := by
  constructor
  · obtain ⟨r, hr, _⟩ := (C4_acceptance_walk C4Env "2025-01-01" WS2 [] []).1
      (by norm_num [WS2]) (by norm_num [WS2]) (by norm_num [WS2])
      ⟨C4Farm, by simp [C4Env], rfl, C4Env_Z1_unlocked⟩
    rw [hr]
    rfl
  · exact (C4_acceptance_walk C4Env "2025-01-01" WS3 [] []).2
      (by norm_num [WS3]) (by norm_num [WS3]) C4Env_nci_neg

theorem C5_tonnage_feasible_witness :
    (1 ≤ WAct.amount_tons) ∧
    ((([WAct]).filter (fun a => a.stp_id == WS1.id)).map Action.amount_tons).sum ≤
      WS1.current_storage + WS1.daily_output :=
  ⟨(C5_tonnage_feasible WEnv [WS1] "2025-01-01" [WAct] WEnv_solve).1 WAct
      (List.mem_singleton.mpr rfl),
   (C5_tonnage_feasible WEnv [WS1] "2025-01-01" [WAct] WEnv_solve).2
      (by simp [WS1]) WS1 (List.mem_singleton.mpr rfl) (by norm_num [WS1])⟩

theorem C6_farm_at_most_once_witness :
    (([WAct]).map Action.farm_id).Nodup :=
  C6_farm_at_most_once WEnv [WS1] "2025-01-01" [WAct] WEnv_solve WEnv_farms_nodup

theorem C10_solver_actions_never_banned_witness :
    (run_day WEnv [WS1] "2025-01-01" [WAct]).isSome = true := by
  obtain ⟨s2, r2, hrd, _⟩ :=
    C10_solver_actions_never_banned WEnv [WS1] "2025-01-01" [WAct] WEnv_solve WEnv_farms_nodup
  rw [hrd]
  rfl

end KeralaBio

